import Mathlib

/-!
# gofswatcher: the watch-to-publish pipeline

A shallow embedding of `watcher.go` (`copy`, `emitEvent`, `emmitToRabbit`,
`processEvent`, the event loop of `main`) together with the library functions
they call (`strings.HasSuffix`, `filepath.Base`, `fsnotify.Op.String`,
`fmt.Println`, `json.Marshal` on a one-entry map).

Go strings are byte sequences, so a string is a list of bytes here; a byte is a
natural number below 256.  The operating system and the broker are oracles:
records of functions giving the outcome of every call the program makes.  What
the program does is recorded as a list of effects plus a flag telling whether
the process exited (`log.Fatalf`).

The definitions that follow the words of the specification rather than the
source are `pathInDirectory` (the path `dir/base`), the reader of JSON payloads
(`readString`, `readMembers`, `readObject`) and the predicates on strings
(`ValidString`, `needsNoEscape`, `coerceUTF8`).
-/

namespace GoFsWatcher

/-! ## Strings -/

/-- A Go string: a sequence of bytes. -/
abbrev GoString := List Nat

/-- A Go error value, represented by the text of its `Error()` method. -/
abbrev GoError := GoString

/-- The bytes of an ASCII string literal. -/
def lit (s : String) : GoString := s.toList.map Char.toNat

/-- The path separator of `os.PathSeparator` on Unix, the byte of `/`. -/
def Separator : Nat := 47

/-- Go `strings.HasSuffix`:
`len(s) >= len(suffix) && s[len(s)-len(suffix):] == suffix`. -/
def HasSuffix (s suffix : GoString) : Bool :=
  decide (s.length ≥ suffix.length) && (s.drop (s.length - suffix.length) == suffix)

/-- Go `filepath.Base` on Unix (the volume name is empty): the empty path gives
`.`, trailing separators are stripped, the text after the last separator is
kept, and a path of separators only gives `/`. -/
def Base (path : GoString) : GoString :=
  if path = [] then lit "."
  else
    let stripped := path.rdropWhile (fun c => c == Separator)
    let last := stripped.rtakeWhile (fun c => c != Separator)
    if last = [] then [Separator] else last

/-- Go `fmt.Println`: the operands separated by one space, then a newline. -/
def Println (operands : List GoString) : GoString :=
  List.intercalate [32] operands ++ [10]

/-! ## fsnotify events -/

/-- Operation bit `fsnotify.Create` (`1 << iota`). -/
def Create : Nat := 1
/-- Operation bit `fsnotify.Write`. -/
def Write : Nat := 2
/-- Operation bit `fsnotify.Remove`. -/
def Remove : Nat := 4
/-- Operation bit `fsnotify.Rename`. -/
def Rename : Nat := 8
/-- Operation bit `fsnotify.Chmod`. -/
def Chmod : Nat := 16

/-- Whether the bitmask `op` has every bit of `flag` (`op&flag == flag`). -/
def hasOp (op flag : Nat) : Bool := (op &&& flag) == flag

/-- The method `Op.String` of fsnotify v1.4: the names of the set bits in the
order Create, Remove, Write, Rename, Chmod, each written with a leading pipe
into a buffer, the first pipe stripped; the empty string when no bit is set. -/
def opString (op : Nat) : GoString :=
  let buffer : GoString :=
    (if hasOp op Create then lit "|CREATE" else []) ++
    (if hasOp op Remove then lit "|REMOVE" else []) ++
    (if hasOp op Write then lit "|WRITE" else []) ++
    (if hasOp op Rename then lit "|RENAME" else []) ++
    (if hasOp op Chmod then lit "|CHMOD" else [])
  if buffer.length = 0 then [] else buffer.drop 1

/-- The type `fsnotify.Event`: a path and an operation bitmask. -/
structure Event where
  Name : GoString
  Op : Nat
  deriving DecidableEq, Repr

/-- The configuration record `Conf`. -/
structure Conf where
  Path : GoString
  CopyTo : GoString
  Extension : GoString
  BrokerTopic : GoString
  Broker : GoString
  deriving DecidableEq, Repr

/-! ## Oracles and effects -/

/-- The file system as seen by `copy`: the outcome of each call it makes. -/
structure FileSystem where
  /-- Outcome of `os.Stat`: an error, or whether the mode is regular. -/
  stat : GoString → Except GoError Bool
  /-- Outcome of `os.Open`: the error, if any. -/
  openFile : GoString → Option GoError
  /-- Outcome of `os.Create`: the error, if any. -/
  createFile : GoString → Option GoError
  /-- Outcome of `io.Copy(destination, source)`: bytes written and error. -/
  ioCopy : GoString → GoString → Int × Option GoError

/-- The broker as seen by `emmitToRabbit`: the outcome of each stage. -/
structure Broker where
  /-- Outcome of `amqp.Dial`: the error, if any. -/
  dial : GoString → Option GoError
  /-- Outcome of `conn.Channel`: the error, if any. -/
  channel : Option GoError
  /-- Outcome of `ch.QueueDeclare`: an error, or the name of the queue. -/
  queueDeclare : GoString → Except GoError GoString
  /-- Outcome of `ch.Publish` for a routing key and a body: the error, if any. -/
  publish : GoString → GoString → Option GoError

/-- What the program does, in order. -/
inductive Effect where
  /-- A call `copy(src, dst)`. -/
  | copyCall (src dst : GoString)
  /-- A call `emitEvent(fileName, conf)`. -/
  | emitCall (fileName : GoString)
  /-- A line written to standard output (`fmt.Println`). -/
  | stdout (line : GoString)
  /-- A line written by the logger (`log.Println`, `log.Printf`). -/
  | logLine (line : GoString)
  /-- A line written by `log.Fatalf`, which then exits the process. -/
  | logFatal (line : GoString)
  /-- A call `amqp.Dial(url)`. -/
  | dial (url : GoString)
  /-- A call `conn.Channel()`. -/
  | openChannel
  /-- A call `ch.QueueDeclare(name, durable, autoDelete, exclusive, noWait, args)`;
  `args` is `none` for the `nil` table. -/
  | queueDeclare (name : GoString) (durable autoDelete exclusive noWait : Bool)
      (args : Option (List (GoString × GoString)))
  /-- A call `ch.Publish(exchange, key, mandatory, immediate, msg)` with the
  content type and the body of `msg`. -/
  | publish (exchange key : GoString) (mandatory immediate : Bool)
      (contentType body : GoString)
  /-- The deferred `ch.Close()`. -/
  | closeChannel
  /-- The deferred `conn.Close()`. -/
  | closeConn
  deriving DecidableEq, Repr

/-- The result of running a piece of the program: its effects, and whether it
ended the process (`os.Exit` inside `log.Fatalf`) instead of returning. -/
structure Outcome where
  trace : List Effect
  exited : Bool
  deriving DecidableEq, Repr

/-- The text written by `log.Fatalf("%s: %s", msg, err)`. -/
def fatalText (msg : GoString) (err : GoError) : GoString := msg ++ lit ": " ++ err

/-! ## encoding/json on a string -/

/-- The constant `utf8.RuneError`, U+FFFD. -/
def RuneError : Nat := 0xFFFD

/-- The tables `first` and `acceptRanges` of `unicode/utf8` for a leading byte
that is not ASCII: the length of the sequence and the accepted range of its
second byte; `none` for a byte that cannot start a sequence. -/
def first (b : Nat) : Option (Nat × Nat × Nat) :=
  if 0xC2 ≤ b ∧ b ≤ 0xDF then some (2, 0x80, 0xBF)
  else if b = 0xE0 then some (3, 0xA0, 0xBF)
  else if 0xE1 ≤ b ∧ b ≤ 0xEC then some (3, 0x80, 0xBF)
  else if b = 0xED then some (3, 0x80, 0x9F)
  else if 0xEE ≤ b ∧ b ≤ 0xEF then some (3, 0x80, 0xBF)
  else if b = 0xF0 then some (4, 0x90, 0xBF)
  else if 0xF1 ≤ b ∧ b ≤ 0xF3 then some (4, 0x80, 0xBF)
  else if b = 0xF4 then some (4, 0x80, 0x8F)
  else none

/-- Go `utf8.DecodeRuneInString`: the first rune of `s` and its width in bytes;
`(RuneError, 0)` on the empty string and `(RuneError, 1)` on an invalid
sequence.  The masked and shifted bit fields do not overlap, so they are
written with `%`, `*` and `+`. -/
def DecodeRuneInString (s : GoString) : Nat × Nat :=
  match s with
  | [] => (RuneError, 0)
  | s0 :: rest =>
    if s0 < 0x80 then (s0, 1)
    else
      match first s0 with
      | none => (RuneError, 1)
      | some (sz, lo, hi) =>
        if s.length < sz then (RuneError, 1)
        else
          match rest with
          | [] => (RuneError, 1)
          | s1 :: rest1 =>
            if s1 < lo ∨ hi < s1 then (RuneError, 1)
            else if sz ≤ 2 then (s0 % 32 * 64 + s1 % 64, 2)
            else
              match rest1 with
              | [] => (RuneError, 1)
              | s2 :: rest2 =>
                if s2 < 0x80 ∨ 0xBF < s2 then (RuneError, 1)
                else if sz ≤ 3 then (s0 % 16 * 4096 + s1 % 64 * 64 + s2 % 64, 3)
                else
                  match rest2 with
                  | [] => (RuneError, 1)
                  | s3 :: _ =>
                    if s3 < 0x80 ∨ 0xBF < s3 then (RuneError, 1)
                    else (s0 % 8 * 262144 + s1 % 64 * 4096 + s2 % 64 * 64 + s3 % 64, 4)

/-- The digit of `n` in the table `hex` of `encoding/json`. -/
def hexDigit (n : Nat) : Nat := (lit "0123456789abcdef").getD n 0

/-- The table `htmlSafeSet` of `encoding/json`: the ASCII bytes written as they
are, which is every byte from the space on except the double quote, the
ampersand, the angle brackets and the backslash. -/
def htmlSafe (b : Nat) : Bool :=
  decide (0x20 ≤ b) && decide (b < 0x80) &&
    !(b == 34 || b == 38 || b == 60 || b == 62 || b == 92)

/-- The escape written for an ASCII byte outside `htmlSafeSet`.  The double
quote and the backslash get a backslash; newline, carriage return and tab get
their letter; the rest is written as a code unit in hexadecimal.  Releases from
Go 1.22 on also write the letter for backspace and form feed, and
`shortEscapes` tells whether the release does. -/
def escapeByte (shortEscapes : Bool) (b : Nat) : GoString :=
  if b = 92 ∨ b = 34 then [92, b]
  else if b = 8 ∧ shortEscapes then lit "\\b"
  else if b = 12 ∧ shortEscapes then lit "\\f"
  else if b = 10 then lit "\\n"
  else if b = 13 then lit "\\r"
  else if b = 9 then lit "\\t"
  else lit "\\u00" ++ [hexDigit (b / 16), hexDigit (b % 16)]

/-- The loop of `appendString` in `encoding/json` with `escapeHTML` set, on
what is left of the source: an ASCII byte is kept or escaped; an invalid byte
becomes the escape of U+FFFD; U+2028 and U+2029 are escaped; every other rune
is copied.  At most `fuel` runes are read. -/
def appendLoop (shortEscapes : Bool) : Nat → GoString → GoString
  | 0, _ => []
  | _, [] => []
  | fuel + 1, b :: rest =>
    if b < 0x80 then
      (if htmlSafe b then [b] else escapeByte shortEscapes b) ++
        appendLoop shortEscapes fuel rest
    else
      let r := DecodeRuneInString ((b :: rest).take 4)
      if r.1 = RuneError ∧ r.2 = 1 then
        lit "\\ufffd" ++ appendLoop shortEscapes fuel ((b :: rest).drop r.2)
      else if r.1 = 0x2028 ∨ r.1 = 0x2029 then
        lit "\\u202" ++ [hexDigit (r.1 % 16)] ++
          appendLoop shortEscapes fuel ((b :: rest).drop r.2)
      else
        (b :: rest).take r.2 ++ appendLoop shortEscapes fuel ((b :: rest).drop r.2)

/-- The function `appendString` of `encoding/json`: the source as a JSON string
literal, between double quotes.  Every turn of the loop reads at least one
byte, so the length of the source is enough fuel. -/
def appendString (shortEscapes : Bool) (src : GoString) : GoString :=
  [34] ++ appendLoop shortEscapes src.length src ++ [34]

/-- Go `json.Marshal` on the map with the one entry `"fileName": fileName`: an
object with the key and the value as string literals.  A string value never
makes it fail. -/
def Marshal (shortEscapes : Bool) (fileName : GoString) : Except GoError GoString :=
  .ok ([123] ++ appendString shortEscapes (lit "fileName") ++ [58] ++
    appendString shortEscapes fileName ++ [125])

/-! ## watcher.go -/

/-- The function `copy`: 0 bytes and the error when the source cannot be
inspected, is not a regular file or cannot be opened, or when the destination
cannot be created; otherwise what `io.Copy` returns. -/
def copy (fs : FileSystem) (src dst : GoString) : Int × Option GoError :=
  match fs.stat src with
  | .error err => (0, some err)
  | .ok isRegular =>
    if !isRegular then (0, some (src ++ lit " is not a regular file"))
    else
      match fs.openFile src with
      | some err => (0, some err)
      | none =>
        match fs.createFile dst with
        | some err => (0, some err)
        | none => fs.ioCopy dst src

/-- The function `emmitToRabbit`: dial, open a channel, declare the queue,
publish; each stage runs only when the one before succeeded, and a failed stage
ends in `log.Fatalf`.  The deferred closes run on a normal return only, the
channel first. -/
def emmitToRabbit (b : Broker) (conf : Conf) (bytesRepresentation : GoString) : Outcome :=
  match b.dial conf.Broker with
  | some err =>
    ⟨[.dial conf.Broker, .logFatal (fatalText (lit "Failed to connect to RabbitMQ") err)], true⟩
  | none =>
    match b.channel with
    | some err =>
      ⟨[.dial conf.Broker, .openChannel,
        .logFatal (fatalText (lit "Failed to open a channel") err)], true⟩
    | none =>
      match b.queueDeclare conf.BrokerTopic with
      | .error err =>
        ⟨[.dial conf.Broker, .openChannel,
          .queueDeclare conf.BrokerTopic true false false false none,
          .logFatal (fatalText (lit "Failed to declare a queue") err)], true⟩
      | .ok qName =>
        match b.publish qName bytesRepresentation with
        | some err =>
          ⟨[.dial conf.Broker, .openChannel,
            .queueDeclare conf.BrokerTopic true false false false none,
            .publish [] qName false false (lit "application/json") bytesRepresentation,
            .logFatal (fatalText (lit "Failed to publish a message") err)], true⟩
        | none =>
          ⟨[.dial conf.Broker, .openChannel,
            .queueDeclare conf.BrokerTopic true false false false none,
            .publish [] qName false false (lit "application/json") bytesRepresentation,
            .logLine (lit " [x] Sent " ++ bytesRepresentation),
            .closeChannel, .closeConn], false⟩

/-- The function `emitEvent`: prints the file name, marshals the message and
hands the bytes to `emmitToRabbit`; a marshalling error is logged instead. -/
def emitEvent (shortEscapes : Bool) (b : Broker) (fileName : GoString) (conf : Conf) :
    Outcome :=
  match Marshal shortEscapes fileName with
  | .error err =>
    ⟨[.emitCall fileName, .stdout (Println [lit "Event on file", fileName]),
      .logLine (Println [err])], false⟩
  | .ok bytesRepresentation =>
    let r := emmitToRabbit b conf bytesRepresentation
    ⟨[.emitCall fileName, .stdout (Println [lit "Event on file", fileName])] ++ r.trace,
      r.exited⟩

/-- The function `processEvent`: on an operation rendered exactly `CREATE` and
a path with the configured suffix, copies the file to `conf.CopyTo+fileName`
and, when the byte count is positive, calls `emitEvent`; the error of `copy` is
discarded.  Any other rendering prints the unhandled-event line. -/
def processEvent (shortEscapes : Bool) (fs : FileSystem) (b : Broker) (event : Event)
    (conf : Conf) : Outcome :=
  let filePath := event.Name
  let fileName := Base filePath
  let op := opString event.Op
  if op = lit "CREATE" then
    if HasSuffix filePath conf.Extension then
      let bytes := (copy fs event.Name (conf.CopyTo ++ fileName)).1
      if bytes > 0 then
        let r := emitEvent shortEscapes b fileName conf
        ⟨.copyCall event.Name (conf.CopyTo ++ fileName) :: r.trace, r.exited⟩
      else ⟨[.copyCall event.Name (conf.CopyTo ++ fileName)], false⟩
    else ⟨[], false⟩
  else ⟨[.stdout (Println [lit "Unhandled event: ", op, lit " on file: ", fileName])], false⟩

/-- What the loop of `main` receives: an event, with the file system and the
broker as they answer while it is processed, or an error of the watcher. -/
inductive Input where
  | event (event : Event) (fs : FileSystem) (b : Broker)
  | error (err : GoError)

/-- The loop of `main` on the inputs received so far, one at a time in order:
an event goes to `processEvent`, an error is printed.  The loop goes on to the
next input unless the process has exited. -/
def eventLoop (shortEscapes : Bool) (config : Conf) : List Input → Outcome
  | [] => ⟨[], false⟩
  | .event event fs b :: rest =>
    let r := processEvent shortEscapes fs b event config
    if r.exited then r
    else
      let r2 := eventLoop shortEscapes config rest
      ⟨r.trace ++ r2.trace, r2.exited⟩
  | .error err :: rest =>
    let r2 := eventLoop shortEscapes config rest
    ⟨.stdout (Println [lit "ERROR", err]) :: r2.trace, r2.exited⟩

/-! ## Observations on a trace -/

/-- The calls of `copy` in a trace, as pairs of source and destination. -/
def copyCalls (t : List Effect) : List (GoString × GoString) :=
  t.filterMap fun e => match e with
    | .copyCall src dst => some (src, dst)
    | _ => none

/-- The calls of `emitEvent` in a trace, by file name. -/
def emitCalls (t : List Effect) : List GoString :=
  t.filterMap fun e => match e with
    | .emitCall fileName => some fileName
    | _ => none

/-- The calls of `ch.Publish` in a trace, as pairs of routing key and body. -/
def publishCalls (t : List Effect) : List (GoString × GoString) :=
  t.filterMap fun e => match e with
    | .publish _ key _ _ _ body => some (key, body)
    | _ => none

/-- The lines a trace writes, to standard output or through the logger. -/
def linesWritten (t : List Effect) : List GoString :=
  t.filterMap fun e => match e with
    | .stdout line => some line
    | .logLine line => some line
    | .logFatal line => some line
    | _ => none

/-- The four stages of the publisher. -/
inductive Stage where
  | connect
  | channelOpen
  | queueDeclare
  | publish
  deriving DecidableEq, Repr

/-- The stages of the publisher that a trace attempts, in order. -/
def stagesAttempted (t : List Effect) : List Stage :=
  t.filterMap fun e => match e with
    | .dial _ => some .connect
    | .openChannel => some .channelOpen
    | .queueDeclare _ _ _ _ _ _ => some .queueDeclare
    | .publish _ _ _ _ _ _ => some .publish
    | _ => none

/-- The path `dir/base` of the specification: the file named `base` inside the
directory `dir`, whether or not `dir` is written with a trailing separator. -/
def pathInDirectory (dir base : GoString) : GoString :=
  if dir.getLast? = some Separator then dir ++ base else dir ++ [Separator] ++ base

/-! ## Reading a JSON payload back

The specification speaks of the object that a consumer decodes from the
payload.  The definitions below follow the JSON grammar for an object whose
members are strings, written without white space as `json.Marshal` writes it. -/

/-- The value of a hexadecimal digit. -/
def hexValue (c : Nat) : Option Nat :=
  if 48 ≤ c ∧ c ≤ 57 then some (c - 48)
  else if 97 ≤ c ∧ c ≤ 102 then some (c - 87)
  else if 65 ≤ c ∧ c ≤ 70 then some (c - 55)
  else none

/-- The UTF-8 encoding of a code point of the basic plane. -/
def EncodeRune (r : Nat) : GoString :=
  if r < 0x80 then [r]
  else if r < 0x800 then [0xC0 + r / 64, 0x80 + r % 64]
  else [0xE0 + r / 4096, 0x80 + r / 64 % 64, 0x80 + r % 64]

/-- The byte that a one-letter escape of JSON stands for. -/
def unescape (c : Nat) : Option Nat :=
  if c = 34 then some 34
  else if c = 92 then some 92
  else if c = 47 then some 47
  else if c = 98 then some 8
  else if c = 102 then some 12
  else if c = 110 then some 10
  else if c = 114 then some 13
  else if c = 116 then some 9
  else none

/-- Reads the rest of a JSON string literal, after its opening quote: the
decoded string and what follows the closing quote.  A one-letter escape stands
for its byte, a hexadecimal escape for the UTF-8 encoding of its code point, any
other byte from the space on for itself.  An escape of a surrogate, a control
byte and a missing closing quote are refused. -/
def readString : GoString → Option (GoString × GoString)
  | [] => none
  | c :: rest =>
    if c = 34 then some ([], rest)
    else if c = 92 then
      match rest with
      | [] => none
      | e :: rest1 =>
        if e = 117 then
          match rest1 with
          | h1 :: h2 :: h3 :: h4 :: rest2 =>
            match hexValue h1, hexValue h2, hexValue h3, hexValue h4 with
            | some a, some b, some c, some d =>
              let r := ((a * 16 + b) * 16 + c) * 16 + d
              if 0xD800 ≤ r ∧ r ≤ 0xDFFF then none
              else (readString rest2).map fun p => (EncodeRune r ++ p.1, p.2)
            | _, _, _, _ => none
          | _ => none
        else
          match unescape e with
          | some v => (readString rest1).map fun p => (v :: p.1, p.2)
          | none => none
    else if c < 0x20 then none
    else (readString rest).map fun p => (c :: p.1, p.2)

/-- Reads the members of a JSON object after its opening brace, each a key and
a string value, up to the closing brace, which must end the input. -/
def readMembers : Nat → GoString → Option (List (GoString × GoString))
  | 0, _ => none
  | fuel + 1, s =>
    match s with
    | 34 :: rest =>
      match readString rest with
      | some (key, 58 :: 34 :: rest1) =>
        match readString rest1 with
        | some (value, [125]) => some [(key, value)]
        | some (value, 44 :: rest2) =>
          (readMembers fuel rest2).map fun members => (key, value) :: members
        | _ => none
      | _ => none
    | _ => none

/-- Reads a JSON object with string values: its members in order, as pairs of
key and value.  Every member takes at least one byte, so the length of the
input is enough fuel. -/
def readObject (payload : GoString) : Option (List (GoString × GoString)) :=
  match payload with
  | [123, 125] => some []
  | 123 :: rest => readMembers rest.length rest
  | _ => none

/-- Go `utf8.ValidString`, as a loop over the runes: no rune of the string
decodes to the error of width 1.  At most `fuel` runes are read. -/
def validLoop : Nat → GoString → Bool
  | 0, s => s.isEmpty
  | _, [] => true
  | fuel + 1, b :: rest =>
    if b < 0x80 then validLoop fuel rest
    else
      let r := DecodeRuneInString ((b :: rest).take 4)
      if r.1 = RuneError ∧ r.2 = 1 then false
      else validLoop fuel ((b :: rest).drop r.2)

/-- Whether a string is valid UTF-8. -/
def ValidString (s : GoString) : Bool := validLoop s.length s

/-- Whether every rune of a string is one that `appendString` writes as it is:
an ASCII byte of `htmlSafeSet`, or a valid rune beyond ASCII other than U+2028
and U+2029.  At most `fuel` runes are read. -/
def plainLoop : Nat → GoString → Bool
  | 0, s => s.isEmpty
  | _, [] => true
  | fuel + 1, b :: rest =>
    if b < 0x80 then htmlSafe b && plainLoop fuel rest
    else
      let r := DecodeRuneInString ((b :: rest).take 4)
      if r.1 = RuneError ∧ r.2 = 1 then false
      else if r.1 = 0x2028 ∨ r.1 = 0x2029 then false
      else plainLoop fuel ((b :: rest).drop r.2)

/-- Whether a string needs no JSON escaping. -/
def needsNoEscape (s : GoString) : Bool := plainLoop s.length s

/-- The coercion to valid UTF-8 that `json.Marshal` documents for string values:
every byte that does not start a valid sequence is replaced by the encoding of
U+FFFD, and every valid rune is kept.  At most `fuel` runes are read. -/
def coerceLoop : Nat → GoString → GoString
  | 0, _ => []
  | _, [] => []
  | fuel + 1, b :: rest =>
    if b < 0x80 then b :: coerceLoop fuel rest
    else
      let r := DecodeRuneInString ((b :: rest).take 4)
      if r.1 = RuneError ∧ r.2 = 1 then
        [0xEF, 0xBF, 0xBD] ++ coerceLoop fuel ((b :: rest).drop r.2)
      else (b :: rest).take r.2 ++ coerceLoop fuel ((b :: rest).drop r.2)

/-- The string coerced to valid UTF-8. -/
def coerceUTF8 (s : GoString) : GoString := coerceLoop s.length s

/-! ## Sample inputs -/

/-- A file system on which every call succeeds and `io.Copy` writes `n` bytes. -/
def fsCopies (n : Int) : FileSystem :=
  ⟨fun _ => .ok true, fun _ => none, fun _ => none, fun _ _ => (n, none)⟩

/-- A file system on which the source does not exist. -/
def fsMissing : FileSystem :=
  ⟨fun _ => .error (lit "no such file or directory"), fun _ => none, fun _ => none,
    fun _ _ => (0, none)⟩

/-- A file system on which `io.Copy` fails after writing 5 bytes. -/
def fsHalfway : FileSystem :=
  ⟨fun _ => .ok true, fun _ => none, fun _ => none,
    fun _ _ => (5, some (lit "no space left on device"))⟩

/-- A broker on which every stage succeeds. -/
def brokerUp : Broker := ⟨fun _ => none, none, fun name => .ok name, fun _ _ => none⟩

/-- A broker that refuses the connection. -/
def brokerDown : Broker :=
  ⟨fun _ => some (lit "connection refused"), none, fun name => .ok name, fun _ _ => none⟩

/-- A configuration whose destination is written without a trailing separator. -/
def confBare : Conf := ⟨lit "/data", lit "/dst", lit ".csv", lit "files", lit "amqp://broker"⟩

/-- A configuration whose destination is written with a trailing separator. -/
def confSlash : Conf := ⟨lit "/data", lit "/dst/", lit ".csv", lit "files", lit "amqp://broker"⟩

/-- A configuration whose extension holds a path separator. -/
def confExact : Conf :=
  ⟨lit "/data", lit "/dst/", lit "/out.csv", lit "files", lit "amqp://broker"⟩

/-! ## Lemmas on the publisher and on `processEvent` -/

theorem opString_Create : opString Create = lit "CREATE" := by decide

theorem opString_ne_CREATE (op : Nat) (hc : hasOp op Create = true)
    (ho : hasOp op Write = true ∨ hasOp op Remove = true ∨ hasOp op Rename = true ∨
      hasOp op Chmod = true) : opString op ≠ lit "CREATE" := by
  unfold opString
  rw [hc]
  rcases Bool.eq_false_or_eq_true (hasOp op Remove) with hr | hr <;>
  rcases Bool.eq_false_or_eq_true (hasOp op Write) with hw | hw <;>
  rcases Bool.eq_false_or_eq_true (hasOp op Rename) with hn | hn <;>
  rcases Bool.eq_false_or_eq_true (hasOp op Chmod) with hm | hm <;>
  simp only [hr, hw, hn, hm] at ho ⊢ <;>
  first
    | decide
    | simp at ho

theorem emmitToRabbit_no_calls (b : Broker) (conf : Conf) (body : GoString) :
    copyCalls (emmitToRabbit b conf body).trace = [] ∧
      emitCalls (emmitToRabbit b conf body).trace = [] := by
  unfold emmitToRabbit
  cases b.dial conf.Broker <;> cases b.channel <;>
    cases b.queueDeclare conf.BrokerTopic <;> simp [copyCalls, emitCalls]
  split <;> simp

theorem emitEvent_calls (se : Bool) (b : Broker) (fileName : GoString) (conf : Conf) :
    copyCalls (emitEvent se b fileName conf).trace = [] ∧
      emitCalls (emitEvent se b fileName conf).trace = [fileName] := by
  have h := emmitToRabbit_no_calls b conf
    ([123] ++ appendString se (lit "fileName") ++ [58] ++ appendString se fileName ++ [125])
  simp only [emitEvent, Marshal]
  constructor
  · simpa [copyCalls] using h.1
  · simpa [emitCalls] using h.2

theorem emmitToRabbit_publishCalls (b : Broker) (conf : Conf) (body : GoString) :
    publishCalls (emmitToRabbit b conf body).trace =
      match b.dial conf.Broker, b.channel, b.queueDeclare conf.BrokerTopic with
      | none, none, .ok qName => [(qName, body)]
      | _, _, _ => [] := by
  unfold emmitToRabbit
  cases b.dial conf.Broker <;> cases b.channel <;>
    cases hq : b.queueDeclare conf.BrokerTopic <;> simp [publishCalls]
  split <;> simp

theorem emitEvent_publishCalls (se : Bool) (b : Broker) (fileName : GoString) (conf : Conf) :
    publishCalls (emitEvent se b fileName conf).trace =
      match b.dial conf.Broker, b.channel, b.queueDeclare conf.BrokerTopic with
      | none, none, .ok qName =>
        [(qName, [123] ++ appendString se (lit "fileName") ++ [58] ++
          appendString se fileName ++ [125])]
      | _, _, _ => [] := by
  have h := emmitToRabbit_publishCalls b conf
    ([123] ++ appendString se (lit "fileName") ++ [58] ++ appendString se fileName ++ [125])
  simp only [emitEvent, Marshal]
  simpa [publishCalls] using h

theorem processEvent_of_create_match (se : Bool) (fs : FileSystem) (b : Broker)
    (event : Event) (conf : Conf) (hop : opString event.Op = lit "CREATE")
    (hsuf : HasSuffix event.Name conf.Extension = true) :
    processEvent se fs b event conf =
      if 0 < (copy fs event.Name (conf.CopyTo ++ Base event.Name)).1 then
        ⟨.copyCall event.Name (conf.CopyTo ++ Base event.Name) ::
          (emitEvent se b (Base event.Name) conf).trace,
          (emitEvent se b (Base event.Name) conf).exited⟩
      else ⟨[.copyCall event.Name (conf.CopyTo ++ Base event.Name)], false⟩ := by
  simp only [processEvent, hop, hsuf, if_true, gt_iff_lt]

theorem processEvent_of_create_no_match (se : Bool) (fs : FileSystem) (b : Broker)
    (event : Event) (conf : Conf) (hop : opString event.Op = lit "CREATE")
    (hsuf : HasSuffix event.Name conf.Extension = false) :
    processEvent se fs b event conf = ⟨[], false⟩ := by
  simp [processEvent, hop, hsuf]

theorem processEvent_of_other (se : Bool) (fs : FileSystem) (b : Broker)
    (event : Event) (conf : Conf) (hop : opString event.Op ≠ lit "CREATE") :
    processEvent se fs b event conf =
      ⟨[.stdout (Println [lit "Unhandled event: ", opString event.Op, lit " on file: ",
        Base event.Name])], false⟩ := by
  simp [processEvent, hop]

theorem copy_early_zero (fs : FileSystem) (src dst : GoString)
    (h : (∃ err, fs.stat src = .error err) ∨ fs.stat src = .ok false ∨
      (∃ err, fs.openFile src = some err) ∨ (∃ err, fs.createFile dst = some err)) :
    (copy fs src dst).1 = 0 ∧ (copy fs src dst).2 ≠ none := by
  unfold copy
  rcases h with ⟨err, h⟩ | h | ⟨err, h⟩ | ⟨err, h⟩
  · simp [h]
  · simp [h]
  · rw [h]; cases fs.stat src with
    | error e => simp
    | ok r => cases r <;> simp
  · rw [h]; cases fs.stat src with
    | error e => simp
    | ok r =>
      cases r
      · simp
      · cases fs.openFile src <;> simp

theorem processEvent_calls (se : Bool) (fs : FileSystem) (b : Broker) (event : Event)
    (conf : Conf) :
    copyCalls (processEvent se fs b event conf).trace =
      (if opString event.Op = lit "CREATE" ∧ HasSuffix event.Name conf.Extension = true
        then [(event.Name, conf.CopyTo ++ Base event.Name)] else []) ∧
    emitCalls (processEvent se fs b event conf).trace =
      (if opString event.Op = lit "CREATE" ∧ HasSuffix event.Name conf.Extension = true ∧
          0 < (copy fs event.Name (conf.CopyTo ++ Base event.Name)).1
        then [Base event.Name] else []) := by
  by_cases hop : opString event.Op = lit "CREATE"
  · cases hsuf : HasSuffix event.Name conf.Extension
    · rw [processEvent_of_create_no_match se fs b event conf hop hsuf]
      simp [copyCalls, emitCalls]
    · rw [processEvent_of_create_match se fs b event conf hop hsuf]
      have h := emitEvent_calls se b (Base event.Name) conf
      by_cases hn : 0 < (copy fs event.Name (conf.CopyTo ++ Base event.Name)).1
      · simp only [hn, if_true, hop, true_and, and_self]
        constructor
        · simpa [copyCalls] using h.1
        · simpa [emitCalls] using h.2
      · simp [hn, hop, copyCalls, emitCalls]
  · rw [processEvent_of_other se fs b event conf hop]
    simp [hop, copyCalls, emitCalls]

theorem processEvent_publishCalls (se : Bool) (fs : FileSystem) (b : Broker) (event : Event)
    (conf : Conf) :
    publishCalls (processEvent se fs b event conf).trace =
      if opString event.Op = lit "CREATE" ∧ HasSuffix event.Name conf.Extension = true ∧
          0 < (copy fs event.Name (conf.CopyTo ++ Base event.Name)).1
      then publishCalls (emitEvent se b (Base event.Name) conf).trace else [] := by
  by_cases hop : opString event.Op = lit "CREATE"
  · cases hsuf : HasSuffix event.Name conf.Extension
    · rw [processEvent_of_create_no_match se fs b event conf hop hsuf]
      simp [publishCalls]
    · rw [processEvent_of_create_match se fs b event conf hop hsuf]
      by_cases hn : 0 < (copy fs event.Name (conf.CopyTo ++ Base event.Name)).1
      · simp [hn, hop, publishCalls]
      · simp [hn, hop, publishCalls]
  · rw [processEvent_of_other se fs b event conf hop]
    simp [hop, publishCalls]

theorem copy_zero_of_ioCopy_zero (fs : FileSystem) (src dst : GoString)
    (h : (fs.ioCopy dst src).1 = 0) : (copy fs src dst).1 = 0 := by
  unfold copy
  cases fs.stat src with
  | error e => rfl
  | ok r =>
    cases r
    · rfl
    · cases fs.openFile src with
      | some e => rfl
      | none =>
        cases fs.createFile dst with
        | some e => rfl
        | none => simpa using h

theorem emitEvent_publishCalls_length (se : Bool) (b : Broker) (fileName : GoString)
    (conf : Conf) : (publishCalls (emitEvent se b fileName conf).trace).length ≤ 1 := by
  rw [emitEvent_publishCalls]
  split <;> simp

theorem HasSuffix_iff (s t : GoString) : HasSuffix s t = true ↔ t <:+ s := by
  unfold HasSuffix
  constructor
  · intro h
    simp only [ge_iff_le, Bool.and_eq_true, decide_eq_true_eq, beq_iff_eq] at h
    exact List.suffix_iff_eq_drop.mpr h.2.symm
  · intro h
    simp only [ge_iff_le, Bool.and_eq_true, decide_eq_true_eq, beq_iff_eq]
    exact ⟨h.length_le, (List.suffix_iff_eq_drop.mp h).symm⟩

theorem suffix_rtakeWhile (p : Nat → Bool) (t l : List Nat) (h : t <:+ l)
    (hp : ∀ x ∈ t, p x = true) : t <:+ l.rtakeWhile p := by
  obtain ⟨u, rfl⟩ := h
  rw [List.rtakeWhile, List.reverse_append,
    List.takeWhile_append_of_pos (by simpa using hp), List.reverse_append, List.reverse_reverse]
  exact List.suffix_append _ _

theorem Base_suffix (path ext : GoString) (hsep : Separator ∉ ext)
    (h : HasSuffix path ext = true) : HasSuffix (Base path) ext = true := by
  rw [HasSuffix_iff] at h ⊢
  rcases List.eq_nil_or_concat ext with rfl | ⟨front, c, hext⟩
  · exact List.nil_suffix
  rw [List.concat_eq_append] at hext
  subst hext
  show (front ++ [c]) <:+ Base path
  · have hc : c ≠ Separator := by
      intro hc
      exact hsep (by simp [hc])
    obtain ⟨u, rfl⟩ := h
    have hne : u ++ (front ++ [c]) ≠ [] := by simp
    have hlast : (u ++ (front ++ [c])).getLast hne = c := by
      simp [List.getLast_append]
    have hstrip : (u ++ (front ++ [c])).rdropWhile (fun x => x == Separator) =
        u ++ (front ++ [c]) := by
      rw [List.rdropWhile_eq_self_iff]
      intro hl
      simp [hlast, hc]
    have hsuf : (front ++ [c]) <:+
        (u ++ (front ++ [c])).rtakeWhile (fun x => x != Separator) := by
      apply suffix_rtakeWhile _ _ _ (List.suffix_append _ _)
      intro x hx
      have : x ≠ Separator := fun hx2 => hsep (hx2 ▸ hx)
      simpa using this
    have hnil : (u ++ (front ++ [c])).rtakeWhile (fun x => x != Separator) ≠ [] := by
      intro h0
      rw [h0] at hsuf
      simpa using hsuf.length_le
    simp only [Base, hne, if_false, hstrip, hnil]
    exact hsuf

/-! ## Lemmas on the JSON string encoder -/

theorem first_spec (b sz lo hi : Nat) (h : first b = some (sz, lo, hi)) :
    0x80 ≤ lo ∧ hi ≤ 0xBF ∧
      ((sz = 2 ∧ 0xC2 ≤ b ∧ b ≤ 0xDF) ∨ (sz = 3 ∧ 0xE0 ≤ b ∧ b ≤ 0xEF) ∨
        (sz = 4 ∧ 0xF0 ≤ b ∧ b ≤ 0xF4 ∧ (b = 0xF0 → 0x90 ≤ lo))) := by
  unfold first at h
  split_ifs at h <;> simp only [Option.some.injEq, Prod.mk.injEq, reduceCtorEq] at h <;>
    omega

theorem DecodeRune_valid (b : Nat) (rest : GoString) (hb : ¬ b < 0x80)
    (hv : ¬ ((DecodeRuneInString ((b :: rest).take 4)).1 = RuneError ∧
      (DecodeRuneInString ((b :: rest).take 4)).2 = 1)) :
    1 ≤ (DecodeRuneInString ((b :: rest).take 4)).2 ∧
    (∀ x ∈ (b :: rest).take (DecodeRuneInString ((b :: rest).take 4)).2, 0x80 ≤ x) ∧
    ((DecodeRuneInString ((b :: rest).take 4)).1 = 0x2028 ∨
        (DecodeRuneInString ((b :: rest).take 4)).1 = 0x2029 →
      (b :: rest).take (DecodeRuneInString ((b :: rest).take 4)).2 =
        EncodeRune (DecodeRuneInString ((b :: rest).take 4)).1) := by
  cases hf : first b with
  | none =>
    exfalso
    apply hv
    rcases rest with _ | ⟨s1, _ | ⟨s2, _ | ⟨s3, t⟩⟩⟩ <;>
      simp [DecodeRuneInString, hb, hf]
  | some v =>
    obtain ⟨sz, lo, hi⟩ := v
    have hs := first_spec b sz lo hi hf
    rcases rest with _ | ⟨s1, _ | ⟨s2, _ | ⟨s3, t⟩⟩⟩ <;>
      simp only [DecodeRuneInString, hb, hf, List.take, if_false, List.length_cons,
        List.length_nil] at hv ⊢ <;>
      split_ifs at hv ⊢ <;>
      first
        | (exfalso; apply hv; constructor <;> rfl)
        | (refine ⟨by simp, ?_, ?_⟩
           · intro x hx
             simp only [List.take, List.mem_cons, List.mem_nil_iff, or_false] at hx
             omega
           · intro h
             dsimp only at h ⊢
             clear hv hf
             rcases h with h | h <;> rw [h] <;> first
               | (exfalso; omega)
               | (rw [show EncodeRune 8232 = [226, 128, 168] by decide]
                  simp only [List.take, List.cons.injEq, and_true]
                  omega)
               | (rw [show EncodeRune 8233 = [226, 128, 169] by decide]
                  simp only [List.take, List.cons.injEq, and_true]
                  omega))

/-! ## Lemmas on reading the payload back -/

theorem readString_cons (c : Nat) (rest : GoString) :
    readString (c :: rest) =
      if c = 34 then some ([], rest)
      else if c = 92 then
        match rest with
        | [] => none
        | e :: rest1 =>
          if e = 117 then
            match rest1 with
            | h1 :: h2 :: h3 :: h4 :: rest2 =>
              match hexValue h1, hexValue h2, hexValue h3, hexValue h4 with
              | some a, some b, some c, some d =>
                if 0xD800 ≤ ((a * 16 + b) * 16 + c) * 16 + d ∧
                    ((a * 16 + b) * 16 + c) * 16 + d ≤ 0xDFFF then none
                else (readString rest2).map fun p =>
                  (EncodeRune (((a * 16 + b) * 16 + c) * 16 + d) ++ p.1, p.2)
              | _, _, _, _ => none
            | _ => none
          else
            match unescape e with
            | some v => (readString rest1).map fun p => (v :: p.1, p.2)
            | none => none
      else if c < 0x20 then none
      else (readString rest).map fun p => (c :: p.1, p.2) := by
  conv_lhs => rw [readString.eq_def]
  rfl

theorem readString_safe (b : Nat) (xs : GoString) (h : htmlSafe b = true) :
    readString (b :: xs) = (readString xs).map fun p => (b :: p.1, p.2) := by
  simp only [htmlSafe, Bool.and_eq_true, decide_eq_true_eq, Bool.not_eq_true',
    Bool.or_eq_false_iff, beq_eq_false_iff_ne, ne_eq] at h
  have h1 : ¬ b = 34 := h.2.1.1.1.1
  have h2 : ¬ b = 92 := h.2.2
  have h3 : ¬ b < 0x20 := by omega
  simp only [readString_cons, h1, h2, h3, if_false]

theorem readString_high (b : Nat) (xs : GoString) (h : 0x80 ≤ b) :
    readString (b :: xs) = (readString xs).map fun p => (b :: p.1, p.2) := by
  have h1 : ¬ b = 34 := by omega
  have h2 : ¬ b = 92 := by omega
  have h3 : ¬ b < 0x20 := by omega
  simp only [readString_cons, h1, h2, h3, if_false]

theorem readString_high_append (l xs : GoString) (h : ∀ x ∈ l, 0x80 ≤ x) :
    readString (l ++ xs) = (readString xs).map fun p => (l ++ p.1, p.2) := by
  induction l with
  | nil => simp
  | cons a l ih =>
    rw [List.cons_append, readString_high a _ (h a (by simp)),
      ih (fun x hx => h x (by simp [hx]))]
    cases readString xs <;> simp

theorem readString_escape (se : Bool) (b : Nat) (xs : GoString) (hb : b < 0x80)
    (h : htmlSafe b = false) :
    readString (escapeByte se b ++ xs) = (readString xs).map fun p => (b :: p.1, p.2) := by
  have hcases : b < 32 ∨ b = 34 ∨ b = 38 ∨ b = 60 ∨ b = 62 ∨ b = 92 := by
    simp only [htmlSafe, Bool.and_eq_false_iff, decide_eq_false_iff_not, not_le, not_lt,
      Bool.not_eq_false', Bool.or_eq_true, beq_iff_eq] at h
    omega
  rcases hcases with h0 | h0 | h0 | h0 | h0 | h0
  · interval_cases b <;> cases se <;>
      simp [escapeByte, readString_cons, lit, hexDigit, hexValue, unescape, EncodeRune]
  all_goals
    subst h0
    cases se <;>
      simp [escapeByte, readString_cons, lit, hexDigit, hexValue, unescape, EncodeRune]

theorem readString_unicode_escape (c : Nat) (xs : GoString) (h : c = 0x2028 ∨ c = 0x2029) :
    readString (lit "\\u202" ++ [hexDigit (c % 16)] ++ xs) =
      (readString xs).map fun p => (EncodeRune c ++ p.1, p.2) := by
  rcases h with h | h <;> subst h <;>
    simp [readString_cons, lit, hexDigit, hexValue]

theorem DecodeRune_width (s : GoString) (hs : s ≠ []) :
    1 ≤ (DecodeRuneInString s).2 := by
  unfold DecodeRuneInString
  split
  · exact absurd rfl hs
  · repeat' split
    all_goals simp

theorem readString_replacement (xs : GoString) :
    readString (lit "\\ufffd" ++ xs) =
      (readString xs).map fun p => ([0xEF, 0xBF, 0xBD] ++ p.1, p.2) := by
  simp [readString_cons, lit, hexValue, EncodeRune]

theorem drop_width_length (b : Nat) (rest : GoString) (fuel : Nat)
    (hlen : (b :: rest).length ≤ fuel + 1) :
    ((b :: rest).drop (DecodeRuneInString ((b :: rest).take 4)).2).length ≤ fuel := by
  have hw := DecodeRune_width ((b :: rest).take 4) (by simp)
  rw [List.length_drop]
  simp only [List.length_cons] at hlen ⊢
  omega

theorem readString_appendLoop (se : Bool) :
    ∀ (fuel : Nat) (s tail : GoString), s.length ≤ fuel →
      readString (appendLoop se fuel s ++ 34 :: tail) = some (coerceLoop fuel s, tail) := by
  intro fuel
  induction fuel with
  | zero =>
    intro s tail hlen
    simp [appendLoop, coerceLoop, readString_cons]
  | succ fuel ih =>
    intro s tail hlen
    cases s with
    | nil => simp [appendLoop, coerceLoop, readString_cons]
    | cons b rest =>
      have hrest : rest.length ≤ fuel := by simpa using hlen
      have hdrop := drop_width_length b rest fuel hlen
      by_cases hb : b < 0x80
      · simp only [appendLoop, coerceLoop, hb, if_true, List.append_assoc]
        cases hs : htmlSafe b
        · simp only [Bool.false_eq_true, if_false]
          rw [readString_escape se b _ hb hs, ih rest tail hrest]
          rfl
        · simp only [if_true, List.singleton_append]
          rw [readString_safe b _ hs, ih rest tail hrest]
          rfl
      · by_cases he : (DecodeRuneInString ((b :: rest).take 4)).1 = RuneError ∧
            (DecodeRuneInString ((b :: rest).take 4)).2 = 1
        · simp only [appendLoop, coerceLoop, hb, if_false, he, and_self, if_true]
          rw [List.append_assoc, readString_replacement, ih _ tail (he.2 ▸ hdrop)]
          rfl
        · obtain ⟨_, hhigh, hsep⟩ := DecodeRune_valid b rest hb he
          simp only [appendLoop, coerceLoop, hb, he, if_false]
          by_cases hu : (DecodeRuneInString ((b :: rest).take 4)).1 = 0x2028 ∨
              (DecodeRuneInString ((b :: rest).take 4)).1 = 0x2029
          · simp only [hu, if_true]
            rw [List.append_assoc, readString_unicode_escape _ _ hu, ih _ tail hdrop,
              ← hsep hu]
            rfl
          · simp only [hu, if_false]
            rw [List.append_assoc, readString_high_append _ _ hhigh, ih _ tail hdrop]
            rfl

theorem coerceLoop_valid :
    ∀ (fuel : Nat) (s : GoString), validLoop fuel s = true → coerceLoop fuel s = s := by
  intro fuel
  induction fuel with
  | zero =>
    intro s hv
    cases s with
    | nil => rfl
    | cons b rest => simp [validLoop] at hv
  | succ fuel ih =>
    intro s hv
    cases s with
    | nil => rfl
    | cons b rest =>
      by_cases hb : b < 0x80
      · simp only [validLoop, hb, if_true] at hv
        simp only [coerceLoop, hb, if_true, ih rest hv]
      · simp only [validLoop, hb, if_false] at hv
        by_cases he : (DecodeRuneInString ((b :: rest).take 4)).1 = RuneError ∧
            (DecodeRuneInString ((b :: rest).take 4)).2 = 1
        · rw [if_pos he] at hv
          exact absurd hv (by decide)
        · simp only [he, if_false] at hv
          simp only [coerceLoop, hb, he, if_false, ih _ hv, List.take_append_drop]

theorem appendLoop_plain (se : Bool) :
    ∀ (fuel : Nat) (s : GoString), plainLoop fuel s = true → appendLoop se fuel s = s := by
  intro fuel
  induction fuel with
  | zero =>
    intro s hp
    cases s with
    | nil => rfl
    | cons b rest => simp [plainLoop] at hp
  | succ fuel ih =>
    intro s hp
    cases s with
    | nil => rfl
    | cons b rest =>
      by_cases hb : b < 0x80
      · simp only [plainLoop, hb, if_true, Bool.and_eq_true] at hp
        simp only [appendLoop, hb, if_true, hp.1, ih rest hp.2, List.singleton_append]
      · simp only [plainLoop, hb, if_false] at hp
        by_cases he : (DecodeRuneInString ((b :: rest).take 4)).1 = RuneError ∧
            (DecodeRuneInString ((b :: rest).take 4)).2 = 1
        · rw [if_pos he] at hp
          exact absurd hp (by decide)
        · simp only [he, if_false] at hp
          by_cases hu : (DecodeRuneInString ((b :: rest).take 4)).1 = 0x2028 ∨
              (DecodeRuneInString ((b :: rest).take 4)).1 = 0x2029
          · rw [if_pos hu] at hp
            exact absurd hp (by decide)
          · simp only [hu, if_false] at hp
            simp only [appendLoop, hb, he, hu, if_false, ih _ hp, List.take_append_drop]

theorem appendLoop_fuel (se : Bool) :
    ∀ (fuel more : Nat) (s : GoString), s.length ≤ fuel →
      appendLoop se (fuel + more) s = appendLoop se fuel s := by
  intro fuel
  induction fuel with
  | zero =>
    intro more s hlen
    have : s = [] := List.length_eq_zero.mp (Nat.le_zero.mp hlen)
    subst this
    cases more <;> rfl
  | succ fuel ih =>
    intro more s hlen
    rw [show fuel + 1 + more = (fuel + more) + 1 by omega]
    cases s with
    | nil => rfl
    | cons b rest =>
      have hw := DecodeRune_width ((b :: rest).take 4) (by simp)
      have hrest : rest.length ≤ fuel := by simpa using hlen
      have hdrop : ((b :: rest).drop (DecodeRuneInString ((b :: rest).take 4)).2).length ≤
          fuel := by
        rw [List.length_drop]
        simp only [List.length_cons]
        omega
      simp only [appendLoop, ih more rest hrest, ih more _ hdrop]

theorem appendString_key (se : Bool) :
    appendString se (lit "fileName") = lit "\"fileName\"" := by
  cases se <;> decide

theorem readObject_Marshal (se : Bool) (fileName : GoString) :
    readObject ([123] ++ appendString se (lit "fileName") ++ [58] ++
      appendString se fileName ++ [125]) = some [(lit "fileName", coerceUTF8 fileName)] := by
  have hk := readString_appendLoop se 8 (lit "fileName")
    (58 :: 34 :: (appendLoop se fileName.length fileName ++ [34, 125])) (by decide)
  have hv := readString_appendLoop se fileName.length fileName [125] (le_refl _)
  have hkey : coerceLoop 8 (lit "fileName") = lit "fileName" := by decide
  have hlen : (lit "fileName").length = 8 := by decide
  rw [hkey] at hk
  have hshape : [123] ++ appendString se (lit "fileName") ++ [58] ++
      appendString se fileName ++ [125] =
      123 :: 34 :: (appendLoop se 8 (lit "fileName") ++
        34 :: 58 :: 34 :: (appendLoop se fileName.length fileName ++ [34, 125])) := by
    simp [appendString, hlen]
  rw [hshape]
  simp only [readObject, List.length_cons, readMembers, hk, hv, coerceUTF8]

/-! ## The claims -/

/-- C1: `processEvent` calls the publisher `emitEvent` only after the one copy it
made for the event returned a positive byte count.  When the copy returns 0
bytes, as it does for a missing source, a source that is not a regular file or
cannot be opened, a destination that cannot be created and a source of zero
bytes, neither `emitEvent` nor `ch.Publish` is called.  On a Create event whose
path has the configured suffix and whose copy returns a positive count,
`emitEvent` is called exactly once, with the base name, and `ch.Publish` at most
once: exactly once, with the marshalled message, when connecting, opening the
channel and declaring the queue succeed. -/
theorem processEvent_publishes_iff_copy_positive (se : Bool) (fs : FileSystem) (b : Broker)
    (event : Event) (conf : Conf) :
    (∀ fileName ∈ emitCalls (processEvent se fs b event conf).trace,
      copyCalls (processEvent se fs b event conf).trace =
        [(event.Name, conf.CopyTo ++ Base event.Name)] ∧
      0 < (copy fs event.Name (conf.CopyTo ++ Base event.Name)).1) ∧
    ((copy fs event.Name (conf.CopyTo ++ Base event.Name)).1 = 0 →
      emitCalls (processEvent se fs b event conf).trace = [] ∧
      publishCalls (processEvent se fs b event conf).trace = []) ∧
    (((∃ err, fs.stat event.Name = .error err) ∨ fs.stat event.Name = .ok false ∨
        (∃ err, fs.openFile event.Name = some err) ∨
        (∃ err, fs.createFile (conf.CopyTo ++ Base event.Name) = some err) ∨
        (fs.ioCopy (conf.CopyTo ++ Base event.Name) event.Name).1 = 0) →
      emitCalls (processEvent se fs b event conf).trace = [] ∧
      publishCalls (processEvent se fs b event conf).trace = []) ∧
    (event.Op = Create → HasSuffix event.Name conf.Extension = true →
      0 < (copy fs event.Name (conf.CopyTo ++ Base event.Name)).1 →
      emitCalls (processEvent se fs b event conf).trace = [Base event.Name] ∧
      (publishCalls (processEvent se fs b event conf).trace).length ≤ 1 ∧
      (b.dial conf.Broker = none → b.channel = none →
        ∀ qName, b.queueDeclare conf.BrokerTopic = .ok qName →
          publishCalls (processEvent se fs b event conf).trace =
            [(qName, [123] ++ appendString se (lit "fileName") ++ [58] ++
              appendString se (Base event.Name) ++ [125])])) := by
  have hc := processEvent_calls se fs b event conf
  have hp := processEvent_publishCalls se fs b event conf
  have hzero : (copy fs event.Name (conf.CopyTo ++ Base event.Name)).1 = 0 →
      emitCalls (processEvent se fs b event conf).trace = [] ∧
      publishCalls (processEvent se fs b event conf).trace = [] := by
    intro h0
    rw [hc.2, hp, h0]
    simp
  refine ⟨?_, hzero, ?_, ?_⟩
  · intro fileName hmem
    rw [hc.2] at hmem
    rw [hc.1]
    by_cases hcond : opString event.Op = lit "CREATE" ∧
        HasSuffix event.Name conf.Extension = true ∧
        0 < (copy fs event.Name (conf.CopyTo ++ Base event.Name)).1
    · exact ⟨by simp [hcond.1, hcond.2.1], hcond.2.2⟩
    · simp [hcond] at hmem
  · intro h
    apply hzero
    rcases h with h | h | h | h | h
    · exact (copy_early_zero fs _ _ (Or.inl h)).1
    · exact (copy_early_zero fs _ _ (Or.inr (Or.inl h))).1
    · exact (copy_early_zero fs _ _ (Or.inr (Or.inr (Or.inl h)))).1
    · exact (copy_early_zero fs _ _ (Or.inr (Or.inr (Or.inr h)))).1
    · exact copy_zero_of_ioCopy_zero fs _ _ h
  · intro hop hsuf hpos
    have hop2 : opString event.Op = lit "CREATE" := by rw [hop]; exact opString_Create
    refine ⟨?_, ?_, ?_⟩
    · rw [hc.2]; simp [hop2, hsuf, hpos]
    · rw [hp]; simp only [hop2, hsuf, hpos, and_self, if_true]
      exact emitEvent_publishCalls_length se b _ conf
    · intro hd hch qName hq
      rw [hp]; simp only [hop2, hsuf, hpos, and_self, if_true]
      rw [emitEvent_publishCalls, hd, hch, hq]

/-- Witness of C1: a Create of `/data/sub/out.csv` copied with 10 bytes is
published once; the same Create of a missing source is not published. -/
theorem processEvent_publishes_iff_copy_positive_witness :
    emitCalls (processEvent false (fsCopies 10) brokerUp
      ⟨lit "/data/sub/out.csv", Create⟩ confSlash).trace = [lit "out.csv"] ∧
    emitCalls (processEvent false fsMissing brokerUp
      ⟨lit "/data/sub/out.csv", Create⟩ confSlash).trace = [] :=
  ⟨((processEvent_publishes_iff_copy_positive false (fsCopies 10) brokerUp
      ⟨lit "/data/sub/out.csv", Create⟩ confSlash).2.2.2 rfl (by decide) (by decide)).1,
   ((processEvent_publishes_iff_copy_positive false fsMissing brokerUp
      ⟨lit "/data/sub/out.csv", Create⟩ confSlash).2.2.1 (Or.inl ⟨_, rfl⟩)).1⟩

/-- Counterexample to C2: `io.Copy` fails after writing 5 bytes, `copy` returns
the error with the count 5, and `processEvent` still calls `emitEvent` and
publishes the message. -/
theorem copy_error_still_published :
    ¬ ∀ (se : Bool) (fs : FileSystem) (b : Broker) (event : Event) (conf : Conf),
      event.Op = Create → HasSuffix event.Name conf.Extension = true →
      (copy fs event.Name (conf.CopyTo ++ Base event.Name)).2 ≠ none →
      emitCalls (processEvent se fs b event conf).trace = [] := by
  intro h
  have h1 := h false fsHalfway brokerUp ⟨lit "/data/sub/out.csv", Create⟩ confSlash rfl
    (by decide) (by decide)
  revert h1
  decide

/-- C2, amended: on a Create event whose path has the configured suffix and whose
copy reports an error, `processEvent` calls `emitEvent` exactly when the byte
count returned with the error is positive; the error itself is discarded.  So
nothing is published when the failed copy reports 0 bytes, which is the case
when the source is missing, is not a regular file or cannot be opened, and when
the destination cannot be created. -/
theorem processEvent_failed_copy_publishes_iff_positive (se : Bool) (fs : FileSystem)
    (b : Broker) (event : Event) (conf : Conf) (hop : event.Op = Create)
    (hsuf : HasSuffix event.Name conf.Extension = true)
    (_herr : (copy fs event.Name (conf.CopyTo ++ Base event.Name)).2 ≠ none) :
    emitCalls (processEvent se fs b event conf).trace =
      (if 0 < (copy fs event.Name (conf.CopyTo ++ Base event.Name)).1
        then [Base event.Name] else []) ∧
    ((copy fs event.Name (conf.CopyTo ++ Base event.Name)).1 = 0 →
      emitCalls (processEvent se fs b event conf).trace = [] ∧
      publishCalls (processEvent se fs b event conf).trace = []) ∧
    (((∃ err, fs.stat event.Name = .error err) ∨ fs.stat event.Name = .ok false ∨
        (∃ err, fs.openFile event.Name = some err) ∨
        (∃ err, fs.createFile (conf.CopyTo ++ Base event.Name) = some err)) →
      emitCalls (processEvent se fs b event conf).trace = [] ∧
      publishCalls (processEvent se fs b event conf).trace = []) := by
  have hop2 : opString event.Op = lit "CREATE" := by rw [hop]; exact opString_Create
  have hc := processEvent_calls se fs b event conf
  have hp := processEvent_publishCalls se fs b event conf
  have hzero : (copy fs event.Name (conf.CopyTo ++ Base event.Name)).1 = 0 →
      emitCalls (processEvent se fs b event conf).trace = [] ∧
      publishCalls (processEvent se fs b event conf).trace = [] := by
    intro h0
    rw [hc.2, hp, h0]
    simp
  refine ⟨?_, hzero, fun h => hzero (copy_early_zero fs _ _ h).1⟩
  rw [hc.2]
  simp [hop2, hsuf]

/-- Witness of C2, amended: the Create of a missing source is not published. -/
theorem processEvent_failed_copy_publishes_iff_positive_witness :
    emitCalls (processEvent false fsMissing brokerUp
      ⟨lit "/data/sub/out.csv", Create⟩ confSlash).trace = [] ∧
    publishCalls (processEvent false fsMissing brokerUp
      ⟨lit "/data/sub/out.csv", Create⟩ confSlash).trace = [] :=
  (processEvent_failed_copy_publishes_iff_positive false fsMissing brokerUp
    ⟨lit "/data/sub/out.csv", Create⟩ confSlash rfl (by decide) (by decide)).2.1 (by decide)

/-- C3: on an event whose operation is Write, Remove, Rename or Chmod, whatever
the path and the configuration, `processEvent` makes no copy, publishes
nothing, and prints exactly one line, the unhandled-event line with the name of
the operation and the base name of the path; then it returns. -/
theorem processEvent_other_operation_unhandled (se : Bool) (fs : FileSystem) (b : Broker)
    (event : Event) (conf : Conf)
    (hop : event.Op = Write ∨ event.Op = Remove ∨ event.Op = Rename ∨ event.Op = Chmod) :
    (∃ opName, (event.Op = Write ∧ opName = lit "WRITE" ∨
        event.Op = Remove ∧ opName = lit "REMOVE" ∨
        event.Op = Rename ∧ opName = lit "RENAME" ∨
        event.Op = Chmod ∧ opName = lit "CHMOD") ∧
      processEvent se fs b event conf =
        ⟨[.stdout (lit "Unhandled event:  " ++ opName ++ lit "  on file:  " ++
          Base event.Name ++ lit "\n")], false⟩) ∧
    copyCalls (processEvent se fs b event conf).trace = [] ∧
    emitCalls (processEvent se fs b event conf).trace = [] ∧
    publishCalls (processEvent se fs b event conf).trace = [] ∧
    (linesWritten (processEvent se fs b event conf).trace).length = 1 := by
  have hne : opString event.Op ≠ lit "CREATE" := by
    rcases hop with h | h | h | h <;> rw [h] <;> decide
  rw [processEvent_of_other se fs b event conf hne]
  refine ⟨⟨opString event.Op, ?_, ?_⟩, rfl, rfl, rfl, rfl⟩
  · rcases hop with h | h | h | h <;> rw [h] <;> decide
  · simp [Println, lit, List.intercalate]

/-- Witness of C3: a Write event on `/data/sub/out.csv`. -/
theorem processEvent_other_operation_unhandled_witness :
    copyCalls (processEvent false (fsCopies 10) brokerUp
      ⟨lit "/data/sub/out.csv", Write⟩ confSlash).trace = [] ∧
    (linesWritten (processEvent false (fsCopies 10) brokerUp
      ⟨lit "/data/sub/out.csv", Write⟩ confSlash).trace).length = 1 :=
  ⟨(processEvent_other_operation_unhandled false (fsCopies 10) brokerUp
      ⟨lit "/data/sub/out.csv", Write⟩ confSlash (Or.inl rfl)).2.1,
   (processEvent_other_operation_unhandled false (fsCopies 10) brokerUp
      ⟨lit "/data/sub/out.csv", Write⟩ confSlash (Or.inl rfl)).2.2.2.2⟩

/-- Counterexample to C4: the Create of `/data/notes.txt` under the extension
`.csv` writes no line at all, so no unhandled-event line. -/
theorem create_without_suffix_not_logged :
    ¬ ∀ (se : Bool) (fs : FileSystem) (b : Broker) (event : Event) (conf : Conf),
      event.Op = Create → HasSuffix event.Name conf.Extension = false →
      .stdout (Println [lit "Unhandled event: ", opString event.Op, lit " on file: ",
        Base event.Name]) ∈ (processEvent se fs b event conf).trace := by
  intro h
  have h1 := h false (fsCopies 10) brokerUp ⟨lit "/data/notes.txt", Create⟩ confSlash rfl
    (by decide)
  revert h1
  decide

/-- C4, amended: on a Create event whose path does not end with the configured
extension, `processEvent` drops the event in silence: it makes no copy,
publishes nothing, writes no line, and returns. -/
theorem processEvent_create_without_suffix_silent (se : Bool) (fs : FileSystem) (b : Broker)
    (event : Event) (conf : Conf) (hop : event.Op = Create)
    (hsuf : HasSuffix event.Name conf.Extension = false) :
    processEvent se fs b event conf = ⟨[], false⟩ ∧
    copyCalls (processEvent se fs b event conf).trace = [] ∧
    emitCalls (processEvent se fs b event conf).trace = [] ∧
    publishCalls (processEvent se fs b event conf).trace = [] ∧
    linesWritten (processEvent se fs b event conf).trace = [] := by
  have hop2 : opString event.Op = lit "CREATE" := by rw [hop]; exact opString_Create
  rw [processEvent_of_create_no_match se fs b event conf hop2 hsuf]
  exact ⟨rfl, rfl, rfl, rfl, rfl⟩

/-- Witness of C4, amended: the Create of `/data/notes.txt` under `.csv`. -/
theorem processEvent_create_without_suffix_silent_witness :
    processEvent false (fsCopies 10) brokerUp ⟨lit "/data/notes.txt", Create⟩ confSlash =
      ⟨[], false⟩ :=
  (processEvent_create_without_suffix_silent false (fsCopies 10) brokerUp
    ⟨lit "/data/notes.txt", Create⟩ confSlash rfl (by decide)).1

/-- Counterexample to C5: with the destination `/dst`, written without a trailing
separator, the Create of `/data/sub/out.csv` is copied to `/dstout.csv`, which
is not `/dst/out.csv`. -/
theorem destination_without_separator :
    copyCalls (processEvent false (fsCopies 10) brokerUp
      ⟨lit "/data/sub/out.csv", Create⟩ confBare).trace =
      [(lit "/data/sub/out.csv", lit "/dstout.csv")] ∧
    pathInDirectory confBare.CopyTo (Base (lit "/data/sub/out.csv")) = lit "/dst/out.csv" ∧
    lit "/dstout.csv" ≠ pathInDirectory confBare.CopyTo (Base (lit "/data/sub/out.csv")) := by
  decide

/-- C5, amended: on a Create event whose path ends with the configured extension,
the destination that `processEvent` passes to `copy` is the concatenation of
the configured destination and the base name of the event path, with nothing
between them; it is the file of that name inside the destination directory
when the destination is configured with a trailing separator. -/
theorem processEvent_destination_is_concatenation (se : Bool) (fs : FileSystem) (b : Broker)
    (event : Event) (conf : Conf) (hop : event.Op = Create)
    (hsuf : HasSuffix event.Name conf.Extension = true) :
    copyCalls (processEvent se fs b event conf).trace =
      [(event.Name, conf.CopyTo ++ Base event.Name)] ∧
    (conf.CopyTo.getLast? = some Separator →
      copyCalls (processEvent se fs b event conf).trace =
        [(event.Name, pathInDirectory conf.CopyTo (Base event.Name))]) := by
  have hop2 : opString event.Op = lit "CREATE" := by rw [hop]; exact opString_Create
  have hc := (processEvent_calls se fs b event conf).1
  simp only [hop2, hsuf, and_self, if_true] at hc
  refine ⟨hc, fun hlast => ?_⟩
  rw [hc, pathInDirectory, if_pos hlast]

/-- Witness of C5, amended: with the destination `/dst/` the Create of
`/data/sub/out.csv` is copied to `/dst/out.csv`. -/
theorem processEvent_destination_is_concatenation_witness :
    copyCalls (processEvent false (fsCopies 10) brokerUp
      ⟨lit "/data/sub/out.csv", Create⟩ confSlash).trace =
      [(lit "/data/sub/out.csv", lit "/dst/out.csv")] :=
  (processEvent_destination_is_concatenation false (fsCopies 10) brokerUp
    ⟨lit "/data/sub/out.csv", Create⟩ confSlash rfl (by decide)).1

/-- Counterexample to C6: under the extension `/out.csv` the Create of
`/data/out.csv` has the base name `out.csv`, which does not end with the
extension, and the file is copied and published all the same. -/
theorem base_name_without_suffix_copied :
    ¬ ∀ (se : Bool) (fs : FileSystem) (b : Broker) (event : Event) (conf : Conf),
      event.Op = Create → HasSuffix (Base event.Name) conf.Extension = false →
      copyCalls (processEvent se fs b event conf).trace = [] ∧
      emitCalls (processEvent se fs b event conf).trace = [] := by
  intro h
  have h1 := h false (fsCopies 10) brokerUp ⟨lit "/data/out.csv", Create⟩ confExact rfl
    (by decide)
  revert h1
  decide

/-- C6, amended: `processEvent` tests the suffix on the whole event path.  On a
Create event whose path does not end with the configured extension there is no
copy and nothing is published; and when the extension holds no path separator,
the same is true of every Create event whose base name does not end with the
extension. -/
theorem processEvent_suffix_on_path (se : Bool) (fs : FileSystem) (b : Broker)
    (event : Event) (conf : Conf) (hop : event.Op = Create) :
    (HasSuffix event.Name conf.Extension = false →
      copyCalls (processEvent se fs b event conf).trace = [] ∧
      emitCalls (processEvent se fs b event conf).trace = [] ∧
      publishCalls (processEvent se fs b event conf).trace = []) ∧
    (Separator ∉ conf.Extension → HasSuffix (Base event.Name) conf.Extension = false →
      copyCalls (processEvent se fs b event conf).trace = [] ∧
      emitCalls (processEvent se fs b event conf).trace = [] ∧
      publishCalls (processEvent se fs b event conf).trace = []) := by
  have hop2 : opString event.Op = lit "CREATE" := by rw [hop]; exact opString_Create
  have hpath : HasSuffix event.Name conf.Extension = false →
      copyCalls (processEvent se fs b event conf).trace = [] ∧
      emitCalls (processEvent se fs b event conf).trace = [] ∧
      publishCalls (processEvent se fs b event conf).trace = [] := by
    intro hsuf
    rw [processEvent_of_create_no_match se fs b event conf hop2 hsuf]
    exact ⟨rfl, rfl, rfl⟩
  refine ⟨hpath, fun hsep hbase => hpath ?_⟩
  cases hsuf : HasSuffix event.Name conf.Extension
  · rfl
  · rw [Base_suffix event.Name conf.Extension hsep hsuf] at hbase
    exact absurd hbase (by decide)

/-- Witness of C6, amended: the Create of `/data/notes.txt` under `.csv`. -/
theorem processEvent_suffix_on_path_witness :
    copyCalls (processEvent false (fsCopies 10) brokerUp
      ⟨lit "/data/notes.txt", Create⟩ confSlash).trace = [] :=
  ((processEvent_suffix_on_path false (fsCopies 10) brokerUp
    ⟨lit "/data/notes.txt", Create⟩ confSlash rfl).2 (by decide) (by decide)).1

/-- Counterexample to C7: the Create of a missing source makes `copy` fail, and
`processEvent` writes no line at all, to any destination. -/
theorem copy_failure_not_logged :
    ¬ ∀ (se : Bool) (fs : FileSystem) (b : Broker) (event : Event) (conf : Conf),
      event.Op = Create → HasSuffix event.Name conf.Extension = true →
      (copy fs event.Name (conf.CopyTo ++ Base event.Name)).2 ≠ none →
      linesWritten (processEvent se fs b event conf).trace ≠ [] := by
  intro h
  have h1 := h false fsMissing brokerUp ⟨lit "/data/sub/out.csv", Create⟩ confSlash rfl
    (by decide) (by decide)
  revert h1
  decide

/-- C7, amended: on a Create event whose path has the configured suffix and whose
copy fails, `processEvent` discards the error.  The copy is made once and not
retried, and what `processEvent` does is what it does on any file system whose
copy returns the same byte count, so no entry is written for the failure.  When
the failed copy reports 0 bytes, `processEvent` does nothing more and returns,
and the event loop goes on with the next input. -/
theorem processEvent_copy_failure_discarded (se : Bool) (fs : FileSystem) (b : Broker)
    (event : Event) (conf : Conf) (hop : event.Op = Create)
    (hsuf : HasSuffix event.Name conf.Extension = true)
    (_herr : (copy fs event.Name (conf.CopyTo ++ Base event.Name)).2 ≠ none) :
    copyCalls (processEvent se fs b event conf).trace =
      [(event.Name, conf.CopyTo ++ Base event.Name)] ∧
    (∀ fs2 : FileSystem,
      (copy fs2 event.Name (conf.CopyTo ++ Base event.Name)).1 =
        (copy fs event.Name (conf.CopyTo ++ Base event.Name)).1 →
      processEvent se fs2 b event conf = processEvent se fs b event conf) ∧
    ((copy fs event.Name (conf.CopyTo ++ Base event.Name)).1 = 0 →
      processEvent se fs b event conf =
        ⟨[.copyCall event.Name (conf.CopyTo ++ Base event.Name)], false⟩ ∧
      linesWritten (processEvent se fs b event conf).trace = [] ∧
      ∀ rest : List Input,
        eventLoop se conf (.event event fs b :: rest) =
          ⟨.copyCall event.Name (conf.CopyTo ++ Base event.Name) ::
            (eventLoop se conf rest).trace, (eventLoop se conf rest).exited⟩) := by
  have hop2 : opString event.Op = lit "CREATE" := by rw [hop]; exact opString_Create
  have hc := (processEvent_calls se fs b event conf).1
  simp only [hop2, hsuf, and_self, if_true] at hc
  refine ⟨hc, ?_, ?_⟩
  · intro fs2 h2
    rw [processEvent_of_create_match se fs2 b event conf hop2 hsuf,
      processEvent_of_create_match se fs b event conf hop2 hsuf, h2]
  · intro h0
    have hp : processEvent se fs b event conf =
        ⟨[.copyCall event.Name (conf.CopyTo ++ Base event.Name)], false⟩ := by
      rw [processEvent_of_create_match se fs b event conf hop2 hsuf, h0]
      simp
    refine ⟨hp, ?_, ?_⟩
    · rw [hp]; rfl
    · intro rest
      simp [eventLoop, hp]

/-- Witness of C7, amended: the Create of a missing source, followed by a Write
event; the loop goes on and prints the unhandled-event line of the second. -/
theorem processEvent_copy_failure_discarded_witness :
    eventLoop false confSlash
      [.event ⟨lit "/data/sub/out.csv", Create⟩ fsMissing brokerUp,
        .event ⟨lit "/data/a.csv", Write⟩ fsMissing brokerUp] =
      ⟨[.copyCall (lit "/data/sub/out.csv") (lit "/dst/out.csv"),
        .stdout (lit "Unhandled event:  WRITE  on file:  a.csv\n")], false⟩ :=
  (((processEvent_copy_failure_discarded false fsMissing brokerUp
    ⟨lit "/data/sub/out.csv", Create⟩ confSlash rfl (by decide) (by decide)).2.2
      (by decide)).2.2 [.event ⟨lit "/data/a.csv", Write⟩ fsMissing brokerUp]).trans (by decide)

/-- Counterexample to C8: the file name made of the one byte `0xFF` is not valid
UTF-8; the value of `fileName` in its payload decodes to U+FFFD, not to the
name.  And the name `a&b.csv`, none of whose characters JSON requires to be
escaped, is not written as it is: the ampersand becomes a hexadecimal escape. -/
theorem payload_not_the_name :
    (¬ ∀ (se : Bool) (fileName payload : GoString), Marshal se fileName = .ok payload →
      readObject payload = some [(lit "fileName", fileName)]) ∧
    Marshal false [0xFF] = .ok (lit "\x7b\"fileName\":\"\\ufffd\"\x7d") ∧
    readObject (lit "\x7b\"fileName\":\"\\ufffd\"\x7d") =
      some [(lit "fileName", [0xEF, 0xBF, 0xBD])] ∧
    Marshal false (lit "a&b.csv") = .ok (lit "\x7b\"fileName\":\"a\\u0026b.csv\"\x7d") ∧
    lit "\x7b\"fileName\":\"a\\u0026b.csv\"\x7d" ≠
      lit "\x7b\"fileName\":\"" ++ lit "a&b.csv" ++ lit "\"\x7d" := by
  refine ⟨?_, ?_, by decide, ?_, by decide⟩
  rotate_left
  · unfold Marshal
    exact congrArg Except.ok (by decide)
  · unfold Marshal
    exact congrArg Except.ok (by decide)
  intro h
  have h1 := h false [0xFF] _ rfl
  revert h1
  decide

/-- C8, amended: for every file name, `emitEvent` hands to `emmitToRabbit` a
payload that reads back as a JSON object with exactly one member, of key
`fileName`, whose value is the file name coerced to valid UTF-8, every byte
that starts no valid sequence replaced by U+FFFD; the value is the file name
itself when the name is valid UTF-8.  For a name made only of characters that
`encoding/json` writes as they are, the payload is the name between the bytes
of the opening `fileName` member and the closing quote and brace; for
`report.csv` it is exactly the object with `fileName` set to `report.csv`. -/
theorem emitEvent_payload (se : Bool) (b : Broker) (fileName : GoString) (conf : Conf) :
    ∃ payload, Marshal se fileName = .ok payload ∧
      emitEvent se b fileName conf =
        ⟨[.emitCall fileName, .stdout (Println [lit "Event on file", fileName])] ++
          (emmitToRabbit b conf payload).trace, (emmitToRabbit b conf payload).exited⟩ ∧
      readObject payload = some [(lit "fileName", coerceUTF8 fileName)] ∧
      (ValidString fileName = true → coerceUTF8 fileName = fileName ∧
        readObject payload = some [(lit "fileName", fileName)]) ∧
      (needsNoEscape fileName = true →
        payload = lit "\x7b\"fileName\":\"" ++ fileName ++ lit "\"\x7d") ∧
      (fileName = lit "report.csv" →
        payload = lit "\x7b\"fileName\":\"report.csv\"\x7d") := by
  have hread := readObject_Marshal se fileName
  have hplain : needsNoEscape fileName = true →
      [123] ++ appendString se (lit "fileName") ++ [58] ++ appendString se fileName ++ [125] =
        lit "\x7b\"fileName\":\"" ++ fileName ++ lit "\"\x7d" := by
    intro hp
    rw [appendString_key]
    simp only [appendString, appendLoop_plain se _ _ hp]
    simp [lit]
  refine ⟨_, rfl, rfl, hread, ?_, hplain, ?_⟩
  · intro hv
    have hc : coerceUTF8 fileName = fileName := coerceLoop_valid _ _ hv
    exact ⟨hc, by rw [hread, hc]⟩
  · intro hname
    subst hname
    rw [hplain (by decide)]
    decide

/-- Witness of C8, amended: the payload of `report.csv` reads back as the object
with the one member `fileName` of value `report.csv`. -/
theorem emitEvent_payload_witness :
    ∃ payload, Marshal false (lit "report.csv") = .ok payload ∧
      readObject payload = some [(lit "fileName", lit "report.csv")] ∧
      payload = lit "\x7b\"fileName\":\"report.csv\"\x7d" := by
  obtain ⟨payload, hm, _, _, hvalid, _, hname⟩ :=
    emitEvent_payload false brokerUp (lit "report.csv") confSlash
  exact ⟨payload, hm, (hvalid (by decide)).2, hname rfl⟩

/-- C9: in `emmitToRabbit`, whatever the four stages answer, a stage that fails
ends the process, with the stages attempted being exactly those up to the
failed one; without a failure the function returns after all four.  Every
`ch.Publish` in the trace comes after a successful connect, channel-open and
queue-declare, and goes to the default exchange with the name of the declared
queue as routing key, the content type `application/json` and the payload as
body.  Every queue declaration in the trace has durable set and autoDelete,
exclusive and noWait unset, with no arguments. -/
theorem emmitToRabbit_stages (b : Broker) (conf : Conf) (payload : GoString) :
    (∀ err, b.dial conf.Broker = some err →
      (emmitToRabbit b conf payload).exited = true ∧
      stagesAttempted (emmitToRabbit b conf payload).trace = [.connect]) ∧
    (∀ err, b.dial conf.Broker = none → b.channel = some err →
      (emmitToRabbit b conf payload).exited = true ∧
      stagesAttempted (emmitToRabbit b conf payload).trace = [.connect, .channelOpen]) ∧
    (∀ err, b.dial conf.Broker = none → b.channel = none →
      b.queueDeclare conf.BrokerTopic = .error err →
      (emmitToRabbit b conf payload).exited = true ∧
      stagesAttempted (emmitToRabbit b conf payload).trace =
        [.connect, .channelOpen, .queueDeclare]) ∧
    (∀ qName err, b.dial conf.Broker = none → b.channel = none →
      b.queueDeclare conf.BrokerTopic = .ok qName → b.publish qName payload = some err →
      (emmitToRabbit b conf payload).exited = true ∧
      stagesAttempted (emmitToRabbit b conf payload).trace =
        [.connect, .channelOpen, .queueDeclare, .publish]) ∧
    (∀ qName, b.dial conf.Broker = none → b.channel = none →
      b.queueDeclare conf.BrokerTopic = .ok qName → b.publish qName payload = none →
      (emmitToRabbit b conf payload).exited = false ∧
      stagesAttempted (emmitToRabbit b conf payload).trace =
        [.connect, .channelOpen, .queueDeclare, .publish]) ∧
    (∀ exchange key mandatory immediate contentType body,
      Effect.publish exchange key mandatory immediate contentType body ∈
        (emmitToRabbit b conf payload).trace →
      b.dial conf.Broker = none ∧ b.channel = none ∧
      b.queueDeclare conf.BrokerTopic = .ok key ∧
      exchange = [] ∧ mandatory = false ∧ immediate = false ∧
      contentType = lit "application/json" ∧ body = payload) ∧
    (∀ name durable autoDelete exclusive noWait args,
      Effect.queueDeclare name durable autoDelete exclusive noWait args ∈
        (emmitToRabbit b conf payload).trace →
      name = conf.BrokerTopic ∧ durable = true ∧ autoDelete = false ∧
      exclusive = false ∧ noWait = false ∧ args = none) := by
  refine ⟨?_, ?_, ?_, ?_, ?_, ?_, ?_⟩
  · intro err h1
    simp [emmitToRabbit, h1, stagesAttempted]
  · intro err h1 h2
    simp [emmitToRabbit, h1, h2, stagesAttempted]
  · intro err h1 h2 h3
    simp [emmitToRabbit, h1, h2, h3, stagesAttempted]
  · intro qName err h1 h2 h3 h4
    simp [emmitToRabbit, h1, h2, h3, h4, stagesAttempted]
  · intro qName h1 h2 h3 h4
    simp [emmitToRabbit, h1, h2, h3, h4, stagesAttempted]
  · intro exchange key mandatory immediate contentType body hmem
    unfold emmitToRabbit at hmem
    cases h1 : b.dial conf.Broker <;> cases h2 : b.channel <;>
      cases h3 : b.queueDeclare conf.BrokerTopic <;> simp [h1, h2, h3] at hmem
    rename_i qName
    cases h4 : b.publish qName payload <;> simp [h4] at hmem <;>
      (obtain ⟨rfl, rfl, rfl, rfl, rfl, rfl⟩ := hmem; simp)
  · intro name durable autoDelete exclusive noWait args hmem
    unfold emmitToRabbit at hmem
    cases h1 : b.dial conf.Broker <;> cases h2 : b.channel <;>
      cases h3 : b.queueDeclare conf.BrokerTopic <;> simp [h1, h2, h3] at hmem
    · exact hmem
    · rename_i qName
      cases h4 : b.publish qName payload <;> simp [h4] at hmem <;> exact hmem

/-- Witness of C9: a broker that refuses the connection ends the process after
the connect stage alone. -/
theorem emmitToRabbit_stages_witness :
    (emmitToRabbit brokerDown confSlash (lit "x")).exited = true ∧
    stagesAttempted (emmitToRabbit brokerDown confSlash (lit "x")).trace = [.connect] :=
  (emmitToRabbit_stages brokerDown confSlash (lit "x")).1 (lit "connection refused") rfl

/-- C10: `processEvent` compares the rendering of the operation bitmask with
`CREATE`, so an event whose bitmask has Create together with at least one of
Write, Remove, Rename and Chmod is unhandled even when its path ends with the
configured extension: no copy, nothing published, and the one line printed is
the unhandled-event line.  Create with Write is rendered `CREATE|WRITE`. -/
theorem processEvent_create_with_other_unhandled (se : Bool) (fs : FileSystem) (b : Broker)
    (event : Event) (conf : Conf) (hc : hasOp event.Op Create = true)
    (ho : hasOp event.Op Write = true ∨ hasOp event.Op Remove = true ∨
      hasOp event.Op Rename = true ∨ hasOp event.Op Chmod = true) :
    processEvent se fs b event conf =
      ⟨[.stdout (Println [lit "Unhandled event: ", opString event.Op, lit " on file: ",
        Base event.Name])], false⟩ ∧
    copyCalls (processEvent se fs b event conf).trace = [] ∧
    emitCalls (processEvent se fs b event conf).trace = [] ∧
    publishCalls (processEvent se fs b event conf).trace = [] ∧
    opString (Create ||| Write) = lit "CREATE|WRITE" := by
  rw [processEvent_of_other se fs b event conf (opString_ne_CREATE event.Op hc ho)]
  exact ⟨rfl, rfl, rfl, rfl, by decide⟩

/-- Witness of C10: the event Create with Write on `/data/sub/out.csv`. -/
theorem processEvent_create_with_other_unhandled_witness :
    processEvent false (fsCopies 10) brokerUp ⟨lit "/data/sub/out.csv", Create ||| Write⟩
      confSlash =
      ⟨[.stdout (lit "Unhandled event:  CREATE|WRITE  on file:  out.csv\n")], false⟩ :=
  ((processEvent_create_with_other_unhandled false (fsCopies 10) brokerUp
    ⟨lit "/data/sub/out.csv", Create ||| Write⟩ confSlash (by decide)
      (Or.inl (by decide))).1).trans (by decide)

end GoFsWatcher
